import Mathlib

/-!
Verification of the commit-rule subsystem of the `mysticeti` repository:
a shallow embedding of `UniversalCommitter` / `UniversalCommitterBuilder`
(crates/mysticeti-core/src/consensus/universal_committer.rs) together with
spec-level models of its external collaborators (Block Store, Committee,
Base Committer), and proofs of the specified properties.
-/

/-!
Machine integers of the source (authority indices, `u64` round numbers, block
digests) are embedded as `Nat`: the embedded code performs only order
comparisons, `+ 1` on a round below the highest stored round, and truncated
subtraction, so no `u64` overflow semantics are involved.  Round 0 is the
genesis round.
-/

/-- `BlockReference`: `(authority, round, digest)` — globally unique identifier
of a block. -/
structure BlockReference where
  authority : Nat
  round : Nat
  digest : Nat
  deriving DecidableEq, Repr

/-- `StatementBlock`: a DAG vertex authored by one authority at one round,
carrying its parent references.  The opaque transaction payload is never
consulted by the commit rule and is omitted from the embedding. -/
structure StatementBlock where
  reference : BlockReference
  parents : List BlockReference
  deriving DecidableEq, Repr

/-- `block.reference()` accessor. -/
def StatementBlock.ref (b : StatementBlock) : BlockReference :=
  b.reference

/-- `block.round()` accessor. -/
def StatementBlock.round (b : StatementBlock) : Nat :=
  b.reference.round

/-- `block.author()` accessor. -/
def StatementBlock.author (b : StatementBlock) : Nat :=
  b.reference.authority

/-- Modelled from the spec: the Block Store is an external collaborator whose
implementation is not under the sources in scope; §6 fixes its contract as an
append-only store with `highest_round`, `get_blocks_by_round` (insertion /
first-seen order, stable) and lookup queries.  We embed it as the insertion
log of blocks; per-round queries filter that log, which preserves first-seen
order within each round. -/
structure BlockStore where
  blocks : List StatementBlock
  deriving DecidableEq, Repr

/-- `BlockStore::get_blocks_by_round(round)`: the blocks at `round` in stable
first-seen order (modelled from the spec's §6 Block Store contract). -/
def BlockStore.get_blocks_by_round (s : BlockStore) (round : Nat) :
    List StatementBlock :=
  s.blocks.filter (fun b => b.reference.round = round)

/-- `BlockStore::highest_round()`: the highest round of any stored block
(0 for an empty store), modelled from the spec's §6 Block Store contract. -/
def BlockStore.highest_round (s : BlockStore) : Nat :=
  (s.blocks.map (fun b => b.reference.round)).foldr max 0

/-- Store `s'` extends store `s` by appended blocks (the Block Store is
append-only: blocks are inserted at the end of the log, never mutated or
deleted). -/
def BlockStore.Extends (s s' : BlockStore) : Prop :=
  ∃ t, s'.blocks = s.blocks ++ t

/-- Modelled from the spec: the Committee is an external collaborator (its
implementation is not under the sources in scope); §6 fixes `total_stake`,
`stake_of` and `quorum_threshold`.  We embed it as the list of stake weights
indexed by authority. -/
structure Committee where
  stakes : List Nat
  deriving DecidableEq, Repr

/-- `Committee::total_stake()`. -/
def Committee.total_stake (c : Committee) : Nat :=
  c.stakes.sum

/-- `Committee::stake_of(authority)` (0 for an unknown authority). -/
def Committee.stake_of (c : Committee) (a : Nat) : Nat :=
  c.stakes.getD a 0

/-- Modelled from the spec: `quorum_threshold() = 2f+1` by stake out of total
stake `3f+1` (§3, §6), i.e. `f` is recovered from the committee's total
stake. -/
def Committee.quorum_threshold (c : Committee) : Nat :=
  2 * ((c.total_stake - 1) / 3) + 1

/-- `LeaderStatus`: decision outcome for one wave leader — `Commit(block)`,
`Skip`, or `Undecided` (§3).  `Skip`/`Undecided` carry the leader authority
and, as required by the spec's merge-by-round contract (§4.3) and
round-phrased properties (§8), the leader round they decide. -/
inductive LeaderStatus where
  | Commit (block : StatementBlock)
  | Skip (authority : Nat) (round : Nat)
  | Undecided (authority : Nat) (round : Nat)
  deriving DecidableEq, Repr

/-- `LeaderStatus::authority()`. -/
def LeaderStatus.authority : LeaderStatus → Nat
  | .Commit b => b.reference.authority
  | .Skip a _ => a
  | .Undecided a _ => a

/-- `LeaderStatus::round()`: the round a decision is about. -/
def LeaderStatus.round : LeaderStatus → Nat
  | .Commit b => b.reference.round
  | .Skip _ r => r
  | .Undecided _ r => r

/-- The metrics sink: `committed_leaders_total` is a counter family keyed by
`(authority, status)` labels; we embed its state as the log of label pairs
incremented so far (observational only, per §4.3/§6). -/
abbrev Metrics := List (String × String)

/-- `BaseCommitterOptions { wave_length, round_offset }`. -/
structure BaseCommitterOptions where
  wave_length : Nat
  round_offset : Nat
  deriving DecidableEq, Repr

/-- Modelled from the spec: the Base Committer's state (its decision logic is
referenced by the sources in scope but not contained in them) — it owns the
committee snapshot, a Block Store handle and its options (§4.2). -/
structure BaseCommitter where
  committee : Committee
  block_store : BlockStore
  options : BaseCommitterOptions
  deriving DecidableEq, Repr

/-- `BaseCommitter::new(committee, block_store)` with the default options
(wave length 3, offset 0), modelled from the spec. -/
def BaseCommitter.new (committee : Committee) (block_store : BlockStore) :
    BaseCommitter :=
  { committee := committee, block_store := block_store,
    options := { wave_length := 3, round_offset := 0 } }

/-- `BaseCommitter::with_options(options)`. -/
def BaseCommitter.with_options (c : BaseCommitter)
    (options : BaseCommitterOptions) : BaseCommitter :=
  { c with options := options }

/-- `DEFAULT_WAVE_LENGTH` (the default wave length constant of the consensus
module). -/
def DEFAULT_WAVE_LENGTH : Nat := 3

/-- `UniversalCommitter`: the block store handle, the collection of base
committers, and the metrics handle. -/
structure UniversalCommitter where
  block_store : BlockStore
  committers : List BaseCommitter
  metrics : Metrics
  deriving DecidableEq, Repr

/-- `UniversalCommitter::update_metrics(leader, direct_decide)`: returns the
label pair incremented on the `committed_leaders_total` counter, or `none`
for `Undecided` (the source returns early without incrementing). -/
def UniversalCommitter.update_metrics (leader : LeaderStatus)
    (direct_decide : Bool) : Option (String × String) :=
  let authority := toString leader.authority
  let direct_or_indirect := if direct_decide then "direct" else "indirect"
  match leader with
  | .Commit _ => some (authority, direct_or_indirect ++ "-commit")
  | .Skip _ _ => some (authority, direct_or_indirect ++ "-skip")
  | .Undecided _ _ => none

/-- Apply `update_metrics` to a metrics state (counter increment = appending
the label pair to the increment log). -/
def Metrics.record (m : Metrics) (leader : LeaderStatus)
    (direct_decide : Bool) : Metrics :=
  match UniversalCommitter.update_metrics leader direct_decide with
  | some lbl => m ++ [lbl]
  | none => m

/-- The body of `try_commit`'s loop
`for round in (last_decided_round + 1)..=highest_round`, threading the
accumulated `committed` vector and the metrics state: each iteration looks at
`blocks.first()` of the round and pushes `LeaderStatus::Commit` when the
block's round is above the watermark, also incrementing the metrics
counter. -/
def tryCommitLoop (store : BlockStore) (last_decided_round : Nat) :
    List Nat → List LeaderStatus → Metrics →
    List LeaderStatus × Metrics
  | [], committed, m => (committed, m)
  | round :: rest, committed, m =>
    let blocks := store.get_blocks_by_round round
    match blocks.head? with
    | some block =>
      if last_decided_round < block.reference.round then
        tryCommitLoop store last_decided_round rest
          (committed ++ [LeaderStatus.Commit block])
          (m.record (LeaderStatus.Commit block) true)
      else
        tryCommitLoop store last_decided_round rest committed m
    | none => tryCommitLoop store last_decided_round rest committed m

/-- `UniversalCommitter::try_commit(last_decided)` with the metrics side
effect made explicit: returns the ordered decided blocks together with the
updated metrics state.  Mirrors the source: an early empty return when
`last_decided_round >= highest_round`, then one loop iteration per round in
`(last_decided_round + 1)..=highest_round`. -/
def UniversalCommitter.try_commit_metered (c : UniversalCommitter)
    (m : Metrics) (last_decided : BlockReference) :
    List LeaderStatus × Metrics :=
  let highest_round := c.block_store.highest_round
  let last_decided_round := last_decided.round
  if highest_round ≤ last_decided_round then ([], m)
  else
    tryCommitLoop c.block_store last_decided_round
      (List.range' (last_decided_round + 1) (highest_round - last_decided_round))
      [] m

/-- `UniversalCommitter::try_commit(last_decided)`: the returned list of
ordered decided blocks (the metrics increment is observational only). -/
def UniversalCommitter.try_commit (c : UniversalCommitter)
    (last_decided : BlockReference) : List LeaderStatus :=
  (c.try_commit_metered c.metrics last_decided).1

/-- `UniversalCommitterBuilder` state. -/
structure UniversalCommitterBuilder where
  committee : Committee
  block_store : BlockStore
  metrics : Metrics
  wave_length : Nat
  pipeline : Bool
  deriving DecidableEq, Repr

/-- `UniversalCommitterBuilder::new(committee, block_store, metrics)`. -/
def UniversalCommitterBuilder.new (committee : Committee)
    (block_store : BlockStore) (metrics : Metrics) :
    UniversalCommitterBuilder :=
  { committee := committee, block_store := block_store, metrics := metrics,
    wave_length := DEFAULT_WAVE_LENGTH, pipeline := false }

/-- `UniversalCommitterBuilder::with_wave_length`. -/
def UniversalCommitterBuilder.with_wave_length
    (b : UniversalCommitterBuilder) (wave_length : Nat) :
    UniversalCommitterBuilder :=
  { b with wave_length := wave_length }

/-- `UniversalCommitterBuilder::with_pipeline`. -/
def UniversalCommitterBuilder.with_pipeline (b : UniversalCommitterBuilder)
    (pipeline : Bool) : UniversalCommitterBuilder :=
  { b with pipeline := pipeline }

/-- `UniversalCommitterBuilder::build()`: one Base Committer per round offset
`0..pipeline_stages`, where `pipeline_stages = wave_length` if pipelining is
enabled, else `1`. -/
def UniversalCommitterBuilder.build (b : UniversalCommitterBuilder) :
    UniversalCommitter :=
  let pipeline_stages := if b.pipeline then b.wave_length else 1
  let committers := (List.range pipeline_stages).map (fun round_offset =>
    (BaseCommitter.new b.committee b.block_store).with_options
      { wave_length := b.wave_length, round_offset := round_offset })
  { block_store := b.block_store, committers := committers,
    metrics := b.metrics }

/-! ### Characterization of `try_commit` -/

/-- The value pushed by one iteration of `try_commit`'s loop at `r`: the first
block of round `r`, as a `Commit`, provided its round is above the
watermark. -/
def commitRound (store : BlockStore) (last : Nat) (r : Nat) :
    Option LeaderStatus :=
  match (store.get_blocks_by_round r).head? with
  | some block =>
    if last < block.reference.round then some (LeaderStatus.Commit block)
    else none
  | none => none

/-- Modelled from the spec: §4.1 Leader Schedule (`leader_for`), whose
implementation is not under the sources in scope; any pure deterministic
function of (committee, round) is acceptable per the spec — we use a
round-robin over the committee. -/
def leader_for (c : Committee) (round : Nat) : Nat :=
  round % c.stakes.length

/-- The stake of the distinct authorities that authored a block satisfying
`p` among `blocks` (certification is stake-weighted and per-authority: an
honest quorum certifies at most one block per authority, §4.2). -/
def Committee.voter_stake (c : Committee) (blocks : List StatementBlock)
    (p : StatementBlock → Bool) : Nat :=
  (((blocks.filter p).map StatementBlock.author).dedup.map c.stake_of).sum

/-- Modelled from the spec: the direct decision rule of
`BaseCommitter::decide_leader` (§4.2 steps 1–4), whose implementation is
referenced by the sources in scope but not contained in them.  Step 1: the
leader is `leader_for(wave_leader_round)` and its block is the first one
observed at that (authority, round) slot (§4.2 tie-break).  Step 2: direct
Commit on a quorum of round `wave_leader_round + 1` blocks including the
leader reference among their parents.  Step 3: direct Skip when no leader
block exists or a quorum omits the reference.  Step 4: `Undecided`
otherwise.  The indirect rule (step 5) resolves earlier waves from later
committed leaders and is outside this claim's direct-decision scope. -/
def BaseCommitter.direct_decide (bc : BaseCommitter)
    (wave_leader_round : Nat) : LeaderStatus :=
  let leader := leader_for bc.committee wave_leader_round
  let leaderBlocks :=
    (bc.block_store.get_blocks_by_round wave_leader_round).filter
      (fun b => b.author = leader)
  match leaderBlocks.head? with
  | none => LeaderStatus.Skip leader wave_leader_round
  | some leaderBlock =>
    let nextBlocks := bc.block_store.get_blocks_by_round (wave_leader_round + 1)
    let certStake := bc.committee.voter_stake nextBlocks
      (fun b => b.parents.contains leaderBlock.reference)
    let blameStake := bc.committee.voter_stake nextBlocks
      (fun b => !(b.parents.contains leaderBlock.reference))
    if bc.committee.quorum_threshold ≤ certStake then
      LeaderStatus.Commit leaderBlock
    else if bc.committee.quorum_threshold ≤ blameStake then
      LeaderStatus.Skip leader wave_leader_round
    else
      LeaderStatus.Undecided leader wave_leader_round

/-- The synthetic committee of 4 authorities with unit stake
(f = 1, quorum = 3). -/
def fourAuthorityCommittee : Committee :=
  { stakes := [1, 1, 1, 1] }

/-- The leader block of the quorum-correctness scenario: authored by the
leader of round 1 (authority 1 under the round-robin schedule). -/
def c1LeaderBlock : StatementBlock :=
  { reference := { authority := 1, round := 1, digest := 0 }, parents := [] }

/-- A round-2 block by authority `a` that includes the leader reference among
its parents iff `v` is true. -/
def c1VoteBlock (a : Nat) (v : Bool) : StatementBlock :=
  { reference := { authority := a, round := 2, digest := 0 },
    parents := if v then [c1LeaderBlock.reference] else [] }

/-- The scenario store: the leader block plus one round-2 block per
authority. -/
def c1Store (v0 v1 v2 v3 : Bool) : BlockStore :=
  { blocks := [c1LeaderBlock, c1VoteBlock 0 v0, c1VoteBlock 1 v1,
      c1VoteBlock 2 v2, c1VoteBlock 3 v3] }

/-- The scenario base committer. -/
def c1BaseCommitter (v0 v1 v2 v3 : Bool) : BaseCommitter :=
  BaseCommitter.new fourAuthorityCommittee (c1Store v0 v1 v2 v3)

/-- Concrete blocks and stores used to instantiate the proved theorems. -/
def wBlock1 : StatementBlock :=
  { reference := { authority := 0, round := 1, digest := 0 }, parents := [] }

def wBlock2 : StatementBlock :=
  { reference := { authority := 1, round := 2, digest := 0 },
    parents := [wBlock1.reference] }

def wBlock3 : StatementBlock :=
  { reference := { authority := 0, round := 3, digest := 0 },
    parents := [wBlock2.reference] }

def wStore : BlockStore :=
  { blocks := [wBlock1, wBlock2] }

def wStoreExt : BlockStore :=
  { blocks := [wBlock1, wBlock2, wBlock3] }

def wCommitter : UniversalCommitter :=
  { block_store := wStore, committers := [], metrics := [] }

def wCommitterExt : UniversalCommitter :=
  { block_store := wStoreExt, committers := [], metrics := [] }

/-- The genesis reference of authority 0 (round 0), used as an initial
watermark. -/
def genesisRef : BlockReference :=
  { authority := 0, round := 0, digest := 0 }

theorem tryCommitLoop_fst (store : BlockStore) (last : Nat) :
    ∀ (rounds : List Nat) (committed : List LeaderStatus) (m : Metrics),
      (tryCommitLoop store last rounds committed m).1 =
        committed ++ rounds.filterMap (commitRound store last) := by
  intro rounds
  induction rounds with
  | nil => intro committed m; simp [tryCommitLoop]
  | cons r rest ih =>
    intro committed m
    simp only [tryCommitLoop, List.filterMap_cons, commitRound]
    cases h : (store.get_blocks_by_round r).head? with
    | none => simp [ih]
    | some block =>
      by_cases hlt : last < block.reference.round
      · simp [hlt, ih]
      · simp [hlt, ih]

theorem try_commit_eq (c : UniversalCommitter) (w : BlockReference) :
    c.try_commit w =
      if c.block_store.highest_round ≤ w.round then []
      else
        (List.range' (w.round + 1) (c.block_store.highest_round - w.round)).filterMap
          (commitRound c.block_store w.round) := by
  unfold UniversalCommitter.try_commit UniversalCommitter.try_commit_metered
  by_cases h : c.block_store.highest_round ≤ w.round
  · simp [h]
  · simp [h, tryCommitLoop_fst]

/-- The returned list is independent of the metrics state threaded through the
call (the metrics increment is observational only). -/
theorem try_commit_metered_fst (c : UniversalCommitter) (m : Metrics)
    (w : BlockReference) :
    (c.try_commit_metered m w).1 = c.try_commit w := by
  unfold UniversalCommitter.try_commit UniversalCommitter.try_commit_metered
  by_cases h : c.block_store.highest_round ≤ w.round
  · simp [h]
  · simp [h, tryCommitLoop_fst]

theorem commitRound_eq_some (store : BlockStore) (last r : Nat)
    (d : LeaderStatus) :
    commitRound store last r = some d ↔
      ∃ b, (store.get_blocks_by_round r).head? = some b ∧
        last < b.reference.round ∧ d = LeaderStatus.Commit b := by
  unfold commitRound
  cases h : (store.get_blocks_by_round r).head? with
  | none => simp
  | some block =>
    dsimp only
    by_cases hlt : last < block.reference.round
    · rw [if_pos hlt]
      constructor
      · intro he
        exact ⟨block, rfl, hlt, (Option.some.inj he).symm⟩
      · rintro ⟨b, hb, _, hd⟩
        cases Option.some.inj hb
        rw [hd]
    · rw [if_neg hlt]
      constructor
      · intro he; simp at he
      · rintro ⟨b, hb, hl, _⟩
        cases Option.some.inj hb
        exact absurd hl hlt

theorem round_of_mem_bucket (store : BlockStore) (r : Nat)
    (b : StatementBlock) (h : b ∈ store.get_blocks_by_round r) :
    b.reference.round = r := by
  unfold BlockStore.get_blocks_by_round at h
  rw [List.mem_filter] at h
  exact of_decide_eq_true h.2

theorem commitRound_round (store : BlockStore) (last r : Nat)
    (d : LeaderStatus) (h : commitRound store last r = some d) :
    d.round = r ∧ last < r := by
  rw [commitRound_eq_some] at h
  obtain ⟨b, hb, hlt, hd⟩ := h
  have hr : b.reference.round = r :=
    round_of_mem_bucket store r b (List.mem_of_mem_head? hb)
  subst hd
  exact ⟨hr, hr ▸ hlt⟩

theorem mem_try_commit (c : UniversalCommitter) (w : BlockReference)
    (d : LeaderStatus) :
    d ∈ c.try_commit w ↔
      ∃ r, w.round < r ∧ r ≤ c.block_store.highest_round ∧
        commitRound c.block_store w.round r = some d := by
  rw [try_commit_eq]
  by_cases h : c.block_store.highest_round ≤ w.round
  · rw [if_pos h]
    simp only [List.not_mem_nil, false_iff]
    rintro ⟨r, h1, h2, _⟩
    exact absurd (h2.trans h) (Nat.not_le.mpr h1)
  · rw [if_neg h]
    rw [List.mem_filterMap]
    push_neg at h
    constructor
    · rintro ⟨r, hr, hr3⟩
      rw [List.mem_range'_1] at hr
      obtain ⟨hr1, hr2⟩ := hr
      refine ⟨r, ?_, ?_, hr3⟩
      · omega
      · omega
    · rintro ⟨r, hr1, hr2, hr3⟩
      refine ⟨r, ?_, hr3⟩
      rw [List.mem_range'_1]
      omega

/-- Every element of the returned list is a `Commit` of the first block at its
round. -/
theorem try_commit_all_commit (c : UniversalCommitter) (w : BlockReference)
    (d : LeaderStatus) (h : d ∈ c.try_commit w) :
    ∃ b, (c.block_store.get_blocks_by_round d.round).head? = some b ∧
      d = LeaderStatus.Commit b := by
  rw [mem_try_commit] at h
  obtain ⟨r, _, _, hcr⟩ := h
  have hround := (commitRound_round _ _ _ _ hcr).1
  rw [commitRound_eq_some] at hcr
  obtain ⟨b, hb, _, hd⟩ := hcr
  exact ⟨b, hround ▸ hb, hd⟩

theorem filterMap_commitRound_map_round (store : BlockStore) (last : Nat) :
    ∀ L : List Nat,
      (L.filterMap (commitRound store last)).map LeaderStatus.round =
        L.filter (fun r => (commitRound store last r).isSome) := by
  intro L
  induction L with
  | nil => simp
  | cons r rest ih =>
    cases h : commitRound store last r with
    | none => simp [List.filterMap_cons, h, ih, List.filter_cons]
    | some d =>
      have hr := (commitRound_round store last r d h).1
      simp [List.filterMap_cons, h, ih, List.filter_cons, hr]

theorem filterMap_commitRound_filter_round (store : BlockStore)
    (last r : Nat) :
    ∀ L : List Nat,
      (L.filterMap (commitRound store last)).filter (fun d => d.round = r) =
        (L.filter (fun x => x = r)).filterMap (commitRound store last) := by
  intro L
  induction L with
  | nil => simp
  | cons x rest ih =>
    by_cases hx : x = r
    · subst hx
      cases h : commitRound store last x with
      | none => simp [List.filterMap_cons, h, List.filter_cons, ih]
      | some d =>
        have hd := (commitRound_round store last x d h).1
        simp [List.filterMap_cons, h, List.filter_cons, ih, hd]
    · cases h : commitRound store last x with
      | none => simp [List.filterMap_cons, h, List.filter_cons, hx, ih]
      | some d =>
        have hd := (commitRound_round store last x d h).1
        simp [List.filterMap_cons, h, List.filter_cons, hx, ih, hd]

theorem nodup_filter_singleton (L : List Nat) (r : Nat) (h : L.Nodup)
    (hm : r ∈ L) : L.filter (fun x => x = r) = [r] := by
  induction L with
  | nil => cases hm
  | cons a rest ih =>
    rw [List.nodup_cons] at h
    rcases List.mem_cons.mp hm with rfl | hmem
    · have hrest : rest.filter (fun x => x = r) = [] := by
        rw [List.filter_eq_nil_iff]
        intro x hx
        simp only [decide_eq_true_eq]
        intro he
        exact h.1 (he ▸ hx)
      simp [List.filter_cons, hrest]
    · have ha : ¬(a = r) := fun he => h.1 (he ▸ hmem)
      simp [List.filter_cons, ha, ih h.2 hmem]

/-! ### Claims -/

/-- C2: for every watermark and every fixed Block Store state, calling
`try_commit` twice returns identical sequences — the second call (whose
metrics state reflects the first call's counter increments) returns the
same list, that list is independent of the metrics state, and it is a
deterministic function of the watermark and the DAG snapshot alone (any
committer over the same Block Store returns the same list). -/
theorem c2_try_commit_idempotent (c : UniversalCommitter) (m : Metrics)
    (w : BlockReference) :
    (c.try_commit_metered (c.try_commit_metered m w).2 w).1 =
      (c.try_commit_metered m w).1 ∧
    (c.try_commit_metered m w).1 = c.try_commit w ∧
    ∀ c' : UniversalCommitter, c'.block_store = c.block_store →
      c'.try_commit w = c.try_commit w := by
  refine ⟨?_, try_commit_metered_fst c m w, ?_⟩
  · rw [try_commit_metered_fst, try_commit_metered_fst]
  · intro c' hs
    rw [try_commit_eq, try_commit_eq, hs]

/-- Instantiation of `c2_try_commit_idempotent` at a concrete committer whose
committer list differs but whose Block Store agrees. -/
theorem c2_try_commit_idempotent_witness :
    (UniversalCommitter.mk wStore [BaseCommitter.new fourAuthorityCommittee wStore]
        []).block_store = wCommitter.block_store ∧
    (UniversalCommitter.mk wStore [BaseCommitter.new fourAuthorityCommittee wStore]
        []).try_commit genesisRef = wCommitter.try_commit genesisRef :=
  ⟨rfl, (c2_try_commit_idempotent wCommitter [] genesisRef).2.2 _ rfl⟩

/-- C4: for every watermark and Block Store state, the sequence returned by
`try_commit` has strictly increasing round numbers. -/
theorem c4_rounds_strictly_increasing (c : UniversalCommitter)
    (w : BlockReference) :
    ((c.try_commit w).map LeaderStatus.round).Pairwise (· < ·) := by
  rw [try_commit_eq]
  by_cases h : c.block_store.highest_round ≤ w.round
  · rw [if_pos h]; simp
  · rw [if_neg h, filterMap_commitRound_map_round]
    exact (List.pairwise_lt_range' _ _).sublist (List.filter_sublist _)

/-- C5: for every watermark `last_decided` and Block Store state, no element
of `try_commit last_decided` has round 0, and none has round
`≤ last_decided.round`. -/
theorem c5_no_premature_commit (c : UniversalCommitter) (w : BlockReference) :
    ∀ d ∈ c.try_commit w, d.round ≠ 0 ∧ ¬d.round ≤ w.round := by
  intro d hd
  rw [mem_try_commit] at hd
  obtain ⟨r, h1, h2, h3⟩ := hd
  obtain ⟨hr, -⟩ := commitRound_round _ _ _ _ h3
  rw [hr]
  omega

/-- Instantiation of `c5_no_premature_commit` at a concrete store and
element. -/
theorem c5_no_premature_commit_witness :
    LeaderStatus.Commit wBlock1 ∈ wCommitter.try_commit genesisRef ∧
    (LeaderStatus.Commit wBlock1).round ≠ 0 ∧
    ¬(LeaderStatus.Commit wBlock1).round ≤ genesisRef.round :=
  ⟨by decide,
    c5_no_premature_commit wCommitter genesisRef (LeaderStatus.Commit wBlock1)
      (by decide)⟩

/-- C6: if the watermark round is at least the Block Store's highest known
round, `try_commit` returns the empty sequence. -/
theorem c6_empty_when_caught_up (c : UniversalCommitter) (w : BlockReference)
    (h : c.block_store.highest_round ≤ w.round) : c.try_commit w = [] := by
  rw [try_commit_eq, if_pos h]

/-- Instantiation of `c6_empty_when_caught_up` at a concrete store and a
watermark at the highest round. -/
theorem c6_empty_when_caught_up_witness :
    wCommitter.block_store.highest_round ≤ wBlock2.reference.round ∧
    wCommitter.try_commit wBlock2.reference = [] :=
  ⟨by decide, c6_empty_when_caught_up wCommitter wBlock2.reference (by decide)⟩

/-- C7: no element of the sequence returned by `try_commit` is an `Undecided`
variant; every returned element is a `Commit` or a `Skip`. -/
theorem c7_no_undecided (c : UniversalCommitter) (w : BlockReference) :
    ∀ d ∈ c.try_commit w,
      (∀ a r, d ≠ LeaderStatus.Undecided a r) ∧
      ((∃ b, d = LeaderStatus.Commit b) ∨ ∃ a r, d = LeaderStatus.Skip a r) := by
  intro d hd
  obtain ⟨b, -, hb⟩ := try_commit_all_commit c w d hd
  subst hb
  exact ⟨fun a r h => LeaderStatus.noConfusion h, Or.inl ⟨b, rfl⟩⟩

/-- Instantiation of `c7_no_undecided` at a concrete store and element. -/
theorem c7_no_undecided_witness :
    LeaderStatus.Commit wBlock2 ∈ wCommitter.try_commit genesisRef ∧
    ((∀ a r, LeaderStatus.Commit wBlock2 ≠ LeaderStatus.Undecided a r) ∧
      ((∃ b, LeaderStatus.Commit wBlock2 = LeaderStatus.Commit b) ∨
        ∃ a r, LeaderStatus.Commit wBlock2 = LeaderStatus.Skip a r)) :=
  ⟨by decide,
    c7_no_undecided wCommitter genesisRef (LeaderStatus.Commit wBlock2)
      (by decide)⟩

/-- C3: once some `try_commit` call returns a decision for a leader round,
every later call — on any Block Store extending the earlier one by appended
blocks, with any watermark whose round is below that round — that returns a
decision for that same round returns the same decision. -/
theorem c3_monotonic_decision (c c' : UniversalCommitter)
    (hext : c.block_store.Extends c'.block_store)
    (w w' : BlockReference) (d0 d : LeaderStatus)
    (h0 : d0 ∈ c.try_commit w) (hw' : w'.round < d0.round)
    (hd : d ∈ c'.try_commit w') (hr : d.round = d0.round) :
    d = d0 := by
  obtain ⟨b0, hb0, hd0⟩ := try_commit_all_commit c w d0 h0
  obtain ⟨b, hb, hdc⟩ := try_commit_all_commit c' w' d hd
  obtain ⟨t, ht⟩ := hext
  have happ : ∀ (l t' : List StatementBlock), l ≠ [] →
      (l ++ t').head? = l.head? := by
    intro l t' hl
    cases l with
    | nil => exact absurd rfl hl
    | cons x xs => simp
  have hbucket : c'.block_store.get_blocks_by_round d0.round =
      c.block_store.get_blocks_by_round d0.round ++
        t.filter (fun x => x.reference.round = d0.round) := by
    unfold BlockStore.get_blocks_by_round
    rw [ht, List.filter_append]
  have hne : c.block_store.get_blocks_by_round d0.round ≠ [] := by
    intro hnil
    rw [hnil] at hb0
    simp at hb0
  rw [hr, hbucket, happ _ _ hne, hb0] at hb
  cases Option.some.inj hb
  rw [hdc, hd0]

/-- Instantiation of `c3_monotonic_decision`: the round-2 decision of a
two-round store persists unchanged after a round-3 block is appended. -/
theorem c3_monotonic_decision_witness :
    wStore.Extends wStoreExt ∧
    LeaderStatus.Commit wBlock2 ∈ wCommitter.try_commit genesisRef ∧
    genesisRef.round < (LeaderStatus.Commit wBlock2).round ∧
    LeaderStatus.Commit wBlock2 ∈ wCommitterExt.try_commit genesisRef ∧
    (LeaderStatus.Commit wBlock2).round = (LeaderStatus.Commit wBlock2).round ∧
    LeaderStatus.Commit wBlock2 = LeaderStatus.Commit wBlock2 :=
  ⟨⟨[wBlock3], rfl⟩, by decide, by decide, by decide, rfl,
    c3_monotonic_decision wCommitter wCommitterExt ⟨[wBlock3], rfl⟩ genesisRef
      genesisRef (LeaderStatus.Commit wBlock2) (LeaderStatus.Commit wBlock2)
      (by decide) (by decide) (by decide) rfl⟩

/-- C10: for a watermark strictly below the highest round, `try_commit`
returns exactly one `Commit` for each round in the open-closed interval
above the watermark at which the store holds at least one block — namely the
first block of that round in the store's round ordering — and never returns
a `Skip`. -/
theorem c10_one_commit_per_nonempty_round (c : UniversalCommitter)
    (w : BlockReference) (hw : w.round < c.block_store.highest_round) :
    (∀ r, w.round < r → r ≤ c.block_store.highest_round →
      ∀ b, (c.block_store.get_blocks_by_round r).head? = some b →
        (c.try_commit w).filter (fun d => d.round = r) =
          [LeaderStatus.Commit b]) ∧
    ∀ a r, LeaderStatus.Skip a r ∉ c.try_commit w := by
  constructor
  · intro r hr1 hr2 b hb
    have hnle : ¬c.block_store.highest_round ≤ w.round := by omega
    rw [try_commit_eq, if_neg hnle, filterMap_commitRound_filter_round]
    have hmem : r ∈ List.range' (w.round + 1)
        (c.block_store.highest_round - w.round) := by
      rw [List.mem_range'_1]
      omega
    have hnd : (List.range' (w.round + 1)
        (c.block_store.highest_round - w.round)).Nodup :=
      (List.pairwise_lt_range' _ _).imp Nat.ne_of_lt
    rw [nodup_filter_singleton _ _ hnd hmem]
    have hbr : b.reference.round = r :=
      round_of_mem_bucket _ _ _ (List.mem_of_mem_head? hb)
    have hcr : commitRound c.block_store w.round r =
        some (LeaderStatus.Commit b) := by
      rw [commitRound_eq_some]
      exact ⟨b, hb, by omega, rfl⟩
    simp [List.filterMap_cons, hcr]
  · intro a r hskip
    obtain ⟨b, -, habs⟩ := try_commit_all_commit c w _ hskip
    exact LeaderStatus.noConfusion habs

/-- Instantiation of `c10_one_commit_per_nonempty_round` at a concrete
store. -/
theorem c10_one_commit_per_nonempty_round_witness :
    genesisRef.round < wCommitter.block_store.highest_round ∧
    genesisRef.round < 1 ∧ 1 ≤ wCommitter.block_store.highest_round ∧
    (wCommitter.block_store.get_blocks_by_round 1).head? = some wBlock1 ∧
    (wCommitter.try_commit genesisRef).filter (fun d => d.round = 1) =
      [LeaderStatus.Commit wBlock1] ∧
    LeaderStatus.Skip 0 1 ∉ wCommitter.try_commit genesisRef :=
  ⟨by decide, by decide, by decide, by decide,
    (c10_one_commit_per_nonempty_round wCommitter genesisRef (by decide)).1 1
      (by decide) (by decide) wBlock1 (by decide),
    (c10_one_commit_per_nonempty_round wCommitter genesisRef (by decide)).2 0 1⟩

/-- C8: with wave length 3, the committer built with pipelining disabled
(1 stage) and the one built with pipelining enabled (3 stages) return
identical `try_commit` sequences for every watermark over the same Block
Store — hence over repeated calls, however the watermark is advanced, the
same set of committed leader blocks. -/
theorem c8_pipelining_equivalence (committee : Committee) (store : BlockStore)
    (metrics : Metrics) :
    ((((UniversalCommitterBuilder.new committee store
        metrics).with_wave_length 3).build).committers.length = 1) ∧
    (((((UniversalCommitterBuilder.new committee store
        metrics).with_wave_length 3).with_pipeline
        true).build).committers.length = 3) ∧
    ∀ w : BlockReference,
      ((((UniversalCommitterBuilder.new committee store
          metrics).with_wave_length 3).build).try_commit w) =
        ((((UniversalCommitterBuilder.new committee store
            metrics).with_wave_length 3).with_pipeline
            true).build).try_commit w :=
  ⟨rfl, rfl, fun _ => rfl⟩

/-- C9: `build()` constructs `wave_length` Base Committers when pipelining is
enabled and exactly 1 when disabled, with round offsets `0, 1, …` in order,
each configured with the builder's wave length, committee and Block Store. -/
theorem c9_builder_stages (committee : Committee) (store : BlockStore)
    (metrics : Metrics) (W : Nat) (p : Bool) :
    (((((UniversalCommitterBuilder.new committee store
        metrics).with_wave_length W).with_pipeline p).build).committers.length =
      if p then W else 1) ∧
    ∀ i (h : i < ((((UniversalCommitterBuilder.new committee store
        metrics).with_wave_length W).with_pipeline
        p).build).committers.length),
      ((((UniversalCommitterBuilder.new committee store
          metrics).with_wave_length W).with_pipeline p).build).committers.get
          ⟨i, h⟩ =
        { committee := committee, block_store := store,
          options := { wave_length := W, round_offset := i } } := by
  constructor
  · simp [UniversalCommitterBuilder.build, UniversalCommitterBuilder.new,
      UniversalCommitterBuilder.with_wave_length,
      UniversalCommitterBuilder.with_pipeline]
  · intro i h
    simp [UniversalCommitterBuilder.build, UniversalCommitterBuilder.new,
      UniversalCommitterBuilder.with_wave_length,
      UniversalCommitterBuilder.with_pipeline, BaseCommitter.new,
      BaseCommitter.with_options, List.get_eq_getElem]

/-- Instantiation of `c9_builder_stages` with wave length 3, pipelining
enabled, at stage index 1. -/
theorem c9_builder_stages_witness :
    (((((UniversalCommitterBuilder.new fourAuthorityCommittee wStore
        []).with_wave_length 3).with_pipeline
        true).build).committers.length = if true then 3 else 1) ∧
    ((((UniversalCommitterBuilder.new fourAuthorityCommittee wStore
        []).with_wave_length 3).with_pipeline true).build).committers.get
        ⟨1, by decide⟩ =
      { committee := fourAuthorityCommittee, block_store := wStore,
        options := { wave_length := 3, round_offset := 1 } } :=
  ⟨(c9_builder_stages fourAuthorityCommittee wStore [] 3 true).1,
    (c9_builder_stages fourAuthorityCommittee wStore [] 3 true).2 1 (by decide)⟩

/-- C1: for the synthetic committee of 4 unit-stake authorities (f = 1,
quorum = 3) and the leader block of round 1, with the four round-2 blocks
including the leader's reference according to the four flags: if exactly 3
include it the direct decision is `Commit` of the leader block; if exactly 2
include it the decision is `Undecided`; if exactly 1 includes it (3 of 4
omit it) the decision is a direct `Skip`. -/
theorem c1_quorum_correctness (v0 v1 v2 v3 : Bool) :
    (v0.toNat + v1.toNat + v2.toNat + v3.toNat = 3 →
      (c1BaseCommitter v0 v1 v2 v3).direct_decide 1 =
        LeaderStatus.Commit c1LeaderBlock) ∧
    (v0.toNat + v1.toNat + v2.toNat + v3.toNat = 2 →
      (c1BaseCommitter v0 v1 v2 v3).direct_decide 1 =
        LeaderStatus.Undecided 1 1) ∧
    (v0.toNat + v1.toNat + v2.toNat + v3.toNat = 1 →
      (c1BaseCommitter v0 v1 v2 v3).direct_decide 1 =
        LeaderStatus.Skip 1 1) := by
  cases v0 <;> cases v1 <;> cases v2 <;> cases v3 <;> decide

/-- Instantiation of `c1_quorum_correctness` at one vote vector per case. -/
theorem c1_quorum_correctness_witness :
    (true.toNat + true.toNat + true.toNat + false.toNat = 3 ∧
      (c1BaseCommitter true true true false).direct_decide 1 =
        LeaderStatus.Commit c1LeaderBlock) ∧
    (true.toNat + true.toNat + false.toNat + false.toNat = 2 ∧
      (c1BaseCommitter true true false false).direct_decide 1 =
        LeaderStatus.Undecided 1 1) ∧
    (true.toNat + false.toNat + false.toNat + false.toNat = 1 ∧
      (c1BaseCommitter true false false false).direct_decide 1 =
        LeaderStatus.Skip 1 1) :=
  ⟨⟨by decide, (c1_quorum_correctness true true true false).1 (by decide)⟩,
    ⟨by decide, (c1_quorum_correctness true true false false).2.1 (by decide)⟩,
    ⟨by decide, (c1_quorum_correctness true false false false).2.2 (by decide)⟩⟩
